import Mathlib

/-!
# Verification of the kidney-ai retrieval pipeline

Shallow embedding of the core retrieval pipeline of the `beandoc/kidney-ai`
repository (`src/lib/langchain/vectorStore.ts`, `src/lib/langchain/pinecone.ts`
and the admin upload route), together with proofs settling the specification
claims about it.

External effects (the Pinecone network client, the Gemini embedding backend,
the filesystem and the wall clock) are modelled as explicit parameters and
event traces; thrown JS exceptions are modelled with `Except`; JS `Date.now()`
timestamps are `Nat` milliseconds.
-/

namespace KidneyAI

/-- A LangChain `Document`: `pageContent` plus the `metadata.source` field
(the only metadata field the verified code reads).  `source = none` models a
missing `metadata.source`; `some ""` models an empty-string source (falsy in
JS, like a missing one). -/
structure Document where
  pageContent : String
  source : Option String
deriving Repr, DecidableEq

/-! ## `formatContext` (vectorStore.ts lines 232-243) -/

/-- The `doc.metadata.source || "Unknown"` JS expression: a missing or
empty-string (falsy) source becomes `"Unknown"`. -/
def sourceOrUnknown (doc : Document) : String :=
  match doc.source with
  | none => "Unknown"
  | some s => if s = "" then "Unknown" else s

/-- `formatContext` from vectorStore.ts: the empty list yields the fixed
sentinel; otherwise each document is rendered as
`[Source: <source>]\n<pageContent>` and the renderings are joined with
`\n\n---\n\n`. -/
def formatContext (documents : List Document) : String :=
  if documents.length = 0 then
    "No relevant information found in the knowledge base."
  else
    String.intercalate "\n\n---\n\n"
      (documents.map (fun doc =>
        "[Source: " ++ sourceOrUnknown doc ++ "]\n" ++ doc.pageContent))

/-- The per-chunk rendering the spec describes for `formatContext`: the chunk
prefixed with its source tag.  Stated separately from `formatContext` so the
order-preservation theorem compares the implementation against it. -/
def renderChunk (doc : Document) : String :=
  "[Source: " ++ sourceOrUnknown doc ++ "]\n" ++ doc.pageContent

/-! ## JSON flattening (pinecone.ts lines 21-44)

JSON values as the upload route's `JSON.parse` produces them.  A JS number is
carried together with its `String(value)` rendering (`num render`), so the
embedding does not depend on binary floating-point formatting. -/

mutual
inductive Json where
  | str (s : String)
  | num (render : String)
  | bool (b : Bool)
  | null
  | arr (items : JsonList)
  | obj (entries : JsonObj)
deriving Repr, DecidableEq

inductive JsonList where
  | nil
  | cons (hd : Json) (tl : JsonList)
deriving Repr, DecidableEq

inductive JsonObj where
  | nil
  | cons (key : String) (val : Json) (tl : JsonObj)
deriving Repr, DecidableEq
end

/-- The JS `trim` whitespace class (ECMAScript WhiteSpace and
LineTerminator code points, restricted to the ones that can occur here). -/
def isJsSpace (c : Char) : Bool :=
  c = ' ' || c = '\t' || c = '\n' || c = '\r' || c = '\x0B' || c = '\x0C' ||
  c = '\u00A0' || c = '\uFEFF' || c = '\u2028' || c = '\u2029'

/-- JS `s.trim()`: strip leading and trailing whitespace. -/
def jsTrim (s : String) : String :=
  String.mk (((s.toList.dropWhile isJsSpace).reverse.dropWhile isJsSpace).reverse)

/-- JS `s.toLowerCase()` (ASCII case mapping, which is all the verified
code feeds it). -/
def jsToLower (s : String) : String :=
  String.mk (s.toList.map Char.toLower)

/-- `lines.filter(l => l.trim().length > 0).join('\n')` from
`flattenJsonToText`. -/
def joinNonBlank (lines : List String) : String :=
  String.intercalate "\n" (lines.filter (fun l => 0 < (jsTrim l).length))

/-- ``prefix ? `${prefix} > ${key}` : key``. -/
def jsonLabel (pfx key : String) : String :=
  if pfx = "" then key else pfx ++ " > " ++ key

mutual
/-- `flattenJsonToText(data, prefix)` from pinecone.ts.  Strings are returned
verbatim; arrays are flattened element-by-element with the same prefix;
object entries whose value is a string/number/boolean become
`label: value` lines (label = `prefix > key`); other values recurse with the
extended label.  A bare number/boolean/null (in particular an array element)
matches none of the three `typeof` branches and produces no line. -/
def flattenJsonToText : Json → String → String
  | .str s, _ => s
  | .arr items, pfx => joinNonBlank (flattenArr items pfx)
  | .obj entries, pfx => joinNonBlank (flattenObj entries pfx)
  | .num _, _ => ""
  | .bool _, _ => ""
  | .null, _ => ""
  termination_by structural j => j

/-- The `for (const item of data)` loop of the array branch. -/
def flattenArr : JsonList → String → List String
  | .nil, _ => []
  | .cons item rest, pfx => flattenJsonToText item pfx :: flattenArr rest pfx
  termination_by structural l => l

/-- The `for (const [key, value] of Object.entries(data))` loop of the
object branch. -/
def flattenObj : JsonObj → String → List String
  | .nil, _ => []
  | .cons k v rest, pfx =>
    (match v with
     | .str s => jsonLabel pfx k ++ ": " ++ s
     | .num r => jsonLabel pfx k ++ ": " ++ r
     | .bool b => jsonLabel pfx k ++ ": " ++ (if b then "true" else "false")
     | other => flattenJsonToText other (jsonLabel pfx k)) :: flattenObj rest pfx
  termination_by structural o => o
end

/-! ## The RecursiveCharacterTextSplitter (external `@langchain/textsplitters`)

The repository chunks documents with langchain's
`RecursiveCharacterTextSplitter` (always with its default
`keepSeparator = true` and `lengthFunction = (s) => s.length`).  The splitter
is a library dependency, not repository code; it is embedded here following
the upstream algorithm (`splitOnSeparator`, `mergeSplits`, `_splitText`),
specialised to those defaults. -/

/-- JS `hay.includes(needle)` on char lists. -/
def listContains (needle : List Char) : List Char → Bool
  | [] => needle.isEmpty
  | c :: t => if needle.isPrefixOf (c :: t) then true else listContains needle t

/-- JS `hay.includes(needle)`. -/
def containsSub (hay needle : String) : Bool :=
  listContains needle.toList hay.toList

/-- The lookahead split `text.split(RegExp("(?=" + sep + ")"))`: a new piece
starts at every position, other than position 0, where `sep` matches. -/
def splitKeepSepGo (needle : List Char) : List Char → List Char → List (List Char)
  | [], acc => [acc.reverse]
  | c :: rest, acc =>
    if acc ≠ [] ∧ needle.isPrefixOf (c :: rest) then
      acc.reverse :: splitKeepSepGo needle rest [c]
    else
      splitKeepSepGo needle rest (c :: acc)

/-- `splitOnSeparator(text, separator)` with `keepSeparator = true`: lookahead
split on a non-empty separator, character split on the empty (or, in the JS,
`undefined`) separator, then drop empty pieces. -/
def splitOnSeparator (text separator : String) : List String :=
  let splits :=
    if separator ≠ "" then
      (splitKeepSepGo separator.toList text.toList []).map (fun l => String.mk l)
    else
      text.toList.map (fun c => String.mk [c])
  splits.filter (fun s => s ≠ "")

/-- The separator-selection loop at the top of `_splitText`: returns the
chosen separator and, when the loop broke on a matching non-empty separator,
`some` of the remaining lower-priority separators.  `dflt` is the JS initial
value `separators[separators.length - 1]`. -/
def chooseSep (text : String) (dflt : String) : List String → String × Option (List String)
  | [] => (dflt, none)
  | s :: rest =>
    if s = "" then ("", none)
    else if containsSub text s then (s, some rest)
    else chooseSep text dflt rest

/-- `joinDocs`: join then trim; JS `null` (here `none`) when the trimmed
result is empty. -/
def joinDocs (docs : List String) (separator : String) : Option String :=
  let text := jsTrim (String.intercalate separator docs)
  if text = "" then none else some text

/-- The `while`-`shift` loop inside `mergeSplits`.  The `[]` case is
unreachable in the source (the loop guard is false once `total = 0`). -/
def popWhile (chunkSize chunkOverlap sepLen len : Nat) :
    List String → Nat → List String × Nat
  | [], total => ([], total)
  | c :: rest, total =>
    if total > chunkOverlap ∨
        (total + len + (c :: rest).length * sepLen > chunkSize ∧ total > 0) then
      popWhile chunkSize chunkOverlap sepLen len rest (total - c.length)
    else (c :: rest, total)

/-- The main loop of `mergeSplits`; `docs`, `currentDoc` and `total` are the
JS mutable locals (`currentDoc` kept in order, `shift` drops its head). -/
def mergeLoop (chunkSize chunkOverlap : Nat) (separator : String) :
    List String → List String → List String → Nat → List String
  | [], docs, currentDoc, _ =>
    docs ++ (joinDocs currentDoc separator).toList
  | d :: rest, docs, currentDoc, total =>
    let len := d.length
    if total + len + currentDoc.length * separator.length > chunkSize then
      if currentDoc ≠ [] then
        let docs2 := docs ++ (joinDocs currentDoc separator).toList
        let popped := popWhile chunkSize chunkOverlap separator.length len currentDoc total
        mergeLoop chunkSize chunkOverlap separator rest docs2
          (popped.1 ++ [d]) (popped.2 + len)
      else
        mergeLoop chunkSize chunkOverlap separator rest docs
          (currentDoc ++ [d]) (total + len)
    else
      mergeLoop chunkSize chunkOverlap separator rest docs
        (currentDoc ++ [d]) (total + len)

/-- `mergeSplits(splits, separator)`. -/
def mergeSplits (chunkSize chunkOverlap : Nat) (splits : List String)
    (separator : String) : List String :=
  mergeLoop chunkSize chunkOverlap separator splits [] [] 0

/-- The split-processing loop of `_splitText`: pieces shorter than
`chunkSize` accumulate into `goodSplits` and are merged; an oversized piece
flushes `goodSplits` and is either pushed as-is (`recur = none`, no
lower-priority separators left) or split recursively.  The JS merges only a
non-empty `goodSplits`, but merging `[]` yields `[]`, so the unconditional
merge here is extensionally the same. -/
def processSplits (chunkSize chunkOverlap : Nat) (recur : Option (String → List String)) :
    List String → List String → List String
  | [], goodSplits => mergeSplits chunkSize chunkOverlap goodSplits ""
  | s :: rest, goodSplits =>
    if s.length < chunkSize then
      processSplits chunkSize chunkOverlap recur rest (goodSplits ++ [s])
    else
      mergeSplits chunkSize chunkOverlap goodSplits "" ++
        (match recur with
         | none => [s]
         | some f => f s) ++
        processSplits chunkSize chunkOverlap recur rest []

/-- `_splitText(text, separators)`.  The recursion of the source is on a
strict suffix of `separators`; it is expressed with a fuel parameter, and
`splitText` supplies fuel `separators.length + 1`, which that recursion can
never exhaust. -/
def splitTextFuel (chunkSize chunkOverlap : Nat) : Nat → List String → String → List String
  | 0, _, text => [text]
  | fuel + 1, separators, text =>
    let dflt := separators.getLastD ""
    let chosen := chooseSep text dflt separators
    let splits := splitOnSeparator text chosen.1
    processSplits chunkSize chunkOverlap
      (chosen.2.map (fun ns s => splitTextFuel chunkSize chunkOverlap fuel ns s))
      splits []

/-- `splitText(text)` of a `RecursiveCharacterTextSplitter` configured with
the given `chunkSize`, `chunkOverlap` and `separators`. -/
def splitText (chunkSize chunkOverlap : Nat) (separators : List String)
    (text : String) : List String :=
  splitTextFuel chunkSize chunkOverlap (separators.length + 1) separators text

/-- `splitter.splitDocuments(documents)`: every document's `pageContent`
is split and each chunk becomes a `Document` carrying the parent's metadata
(the `loc` line-number metadata the library adds is not modelled). -/
def splitDocumentsWith (chunkSize chunkOverlap : Nat) (separators : List String)
    (documents : List Document) : List Document :=
  (documents.map (fun doc =>
    (splitText chunkSize chunkOverlap separators doc.pageContent).map
      (fun chunk => Document.mk chunk doc.source))).flatten

/-! ## The repository's chunking paths -/

/-- Separator list of `processFileBuffer`, `processRawText` and
`syncKnowledgeBase` (pinecone.ts). -/
def bulkSeparators : List String := ["\n\n", "\n", ". ", "? ", "! ", " ", ""]

/-- Separator list of `splitDocuments` in vectorStore.ts (the ephemeral
store's splitter). -/
def vsSeparators : List String := ["\n## ", "\n### ", "\n\n", "\n", " "]

/-- The `doc.pageContent.trim().length > 10` filter predicate of
pinecone.ts. -/
def isViableChunk (doc : Document) : Bool :=
  10 < (jsTrim doc.pageContent).length

/-- `splitDocuments` from vectorStore.ts lines 83-91: chunkSize 1000,
overlap 200, markdown-header separators — and no post-split filter. -/
def splitDocumentsVS (documents : List Document) : List Document :=
  splitDocumentsWith 1000 200 vsSeparators documents

/-- The chunking stage of `processFileBuffer` (pinecone.ts lines 104-118),
applied to the documents the extension dispatch extracted from the buffer:
split at 1000/150 and drop chunks with trimmed length `<= 10`. -/
def processFileBufferChunks (documents : List Document) : List Document :=
  (splitDocumentsWith 1000 150 bulkSeparators documents).filter isViableChunk

/-- `processRawText(text, sourceLabel)` from pinecone.ts lines 124-143. -/
def processRawText (text sourceLabel : String) : List Document :=
  let doc : Document := { pageContent := text, source := some sourceLabel }
  (splitDocumentsWith 1000 150 bulkSeparators [doc]).filter isViableChunk

/-- The chunk preparation of `syncKnowledgeBase` (pinecone.ts lines
212-222): the `validDocs` local. -/
def syncValidDocs (rawDocs : List Document) : List Document :=
  (splitDocumentsWith 1000 150 bulkSeparators rawDocs).filter isViableChunk

/-! ## Keyword-boost rerank (vectorStore.ts lines 209-221)

The JS sorts `results` with the comparator `(a, b) => bHas - aHas`.
`Array.prototype.sort` is stable (required by ECMAScript 2019, implemented by
every engine Next.js runs on), and a stable comparison sort by a comparator is
modelled by a stable insertion sort with the strict order
`lt a b := cmp(a, b) < 0`; here `cmp(a, b) = bHas - aHas < 0` iff
`aHas ∧ ¬ bHas`. -/

/-- The fixed keyword vocabulary of the hybrid-search logic. -/
def keywords : List String :=
  ["creatinine", "egfr", "gfr", "potassium", "hemodialysis", "dialysis"]

/-- `keywords.some(k => doc.pageContent.toLowerCase().includes(k))`. -/
def docHasKeyword (doc : Document) : Bool :=
  keywords.any (fun k => containsSub (jsToLower doc.pageContent) k)

/-- `keywords.some(k => normalizedQuery.includes(k))`. -/
def queryHasKeyword (normalizedQuery : String) : Bool :=
  keywords.any (fun k => containsSub normalizedQuery k)

/-- Stable insertion into a sorted list: the new element (which occurs later
in the input) is placed before an existing one only when strictly smaller. -/
def insertStable (lt : α → α → Bool) (x : α) : List α → List α
  | [] => [x]
  | y :: ys => if lt x y then x :: y :: ys else y :: insertStable lt x ys

/-- Stable sort by a strict order, processing elements left to right. -/
def stableSort (lt : α → α → Bool) (l : List α) : List α :=
  l.foldl (fun acc x => insertStable lt x acc) []

/-- The comparator `(a, b) => bHas - aHas` as a strict order: `a` sorts
strictly before `b` iff `a` contains a keyword and `b` does not. -/
def keywordLt (a b : Document) : Bool :=
  docHasKeyword a && ! docHasKeyword b

/-- The keyword-boost rerank step of `searchDocuments`: when the normalized
query contains a vocabulary keyword, stably sort keyword-bearing chunks
first; otherwise leave the results untouched. -/
def rerankResults (normalizedQuery : String) (results : List Document) : List Document :=
  if queryHasKeyword normalizedQuery then stableSort keywordLt results else results

/-! ## Query cache and `searchDocuments` (vectorStore.ts lines 15-227) -/

/-- `CACHE_TTL = 1000 * 60 * 60` (one hour, in milliseconds). -/
def CACHE_TTL : Nat := 1000 * 60 * 60

/-- One value of the `queryCache` map: `{ docs, timestamp }`. -/
structure CacheEntry where
  docs : List Document
  timestamp : Nat
deriving Repr, DecidableEq

/-- The `queryCache` JS `Map`, keyed by normalized query.  A JS `Map` has
unique keys; it is modelled as an association list whose `set` replaces the
first matching key in place (preserving insertion order) or appends. -/
abbrev Cache := List (String × CacheEntry)

/-- `queryCache.get(key)`. -/
def cacheGet : Cache → String → Option CacheEntry
  | [], _ => none
  | (k', v) :: rest, k => if k' = k then some v else cacheGet rest k

/-- `queryCache.set(key, value)`. -/
def cacheSet : Cache → String → CacheEntry → Cache
  | [], k, v => [(k, v)]
  | (k', v') :: rest, k, v =>
    if k' = k then (k, v) :: rest else (k', v') :: cacheSet rest k v

/-- The normalized cache key: `refinedQuery.toLowerCase().trim()` (query
refinement is disabled in the source, so `refinedQuery = query`). -/
def normKey (query : String) : String :=
  jsTrim (jsToLower query)

/-- One backend invocation performed by `searchDocuments` (embedding the
query and running `similaritySearch` against the named store). -/
inductive SearchEvent where
  | pineconeSearch (query : String) (topK : Nat)
  | localSearch (query : String) (topK : Nat)
deriving Repr, DecidableEq

/-- The environment of a `searchDocuments` call: whether
`PINECONE_API_KEY` is configured, and the outcomes of the two backends'
`similaritySearch` calls (`Except.error` models a thrown exception —
network failure, quota, a not-ready index, or a failing local store). -/
structure SearchBackends where
  pineconeConfigured : Bool
  pineconeSearch : String → Nat → Except Unit (List Document)
  localSearch : String → Nat → Except Unit (List Document)

/-- The `results` value and backend invocations of the cache-miss path:
Pinecone first when configured, falling back to the local memory store on an
exception; the local store alone otherwise; `[]` when every attempted
backend throws. -/
def backendResults (w : SearchBackends) (query : String) (topK : Nat) :
    List Document × List SearchEvent :=
  if w.pineconeConfigured then
    match w.pineconeSearch query topK with
    | .ok r => (r, [.pineconeSearch query topK])
    | .error _ =>
      match w.localSearch query topK with
      | .ok r => (r, [.pineconeSearch query topK, .localSearch query topK])
      | .error _ => ([], [.pineconeSearch query topK, .localSearch query topK])
  else
    match w.localSearch query topK with
    | .ok r => (r, [.localSearch query topK])
    | .error _ => ([], [.localSearch query topK])

/-- The cache-miss path of `searchDocuments`: query the backends, rerank,
store the reranked list in the cache with the current timestamp, return it.
Result: `(results, updated cache, backend invocations)`. -/
def searchMiss (w : SearchBackends) (cache : Cache) (now : Nat)
    (query : String) (topK : Nat) (normalizedQuery : String) :
    List Document × Cache × List SearchEvent :=
  let br := backendResults w query topK
  let results := rerankResults normalizedQuery br.1
  (results, cacheSet cache normalizedQuery ⟨results, now⟩, br.2)

/-- `searchDocuments(query, topK)` from vectorStore.ts lines 155-227, with
the mutable module state (`queryCache`) and the clock passed explicitly.
A cache entry younger than `CACHE_TTL` is returned verbatim with no backend
invocation and no cache write; otherwise the miss path runs. -/
def searchDocuments (w : SearchBackends) (cache : Cache) (now : Nat)
    (query : String) (topK : Nat) : List Document × Cache × List SearchEvent :=
  let normalizedQuery := normKey query
  match cacheGet cache normalizedQuery with
  | some cached =>
    if now - cached.timestamp < CACHE_TTL then (cached.docs, cache, [])
    else searchMiss w cache now query topK normalizedQuery
  | none => searchMiss w cache now query topK normalizedQuery

/-! ## `initializePinecone` (pinecone.ts lines 285-331) -/

/-- One Pinecone-API call made by `initializePinecone` (the 5-second
deletion-propagation wait included). -/
inductive PcEvent where
  | describeCall
  | deleteCall
  | sleepCall (ms : Nat)
  | createCall (dimension : Nat)
deriving Repr, DecidableEq

/-- Outcomes of the Pinecone client calls `initializePinecone` can make:
`describeResult` is the configured dimension of the existing index (or an
exception, e.g. when the index does not exist); the three `Bool`s say whether
`deleteIndex`, the recreate-path `createIndex` and the catch-handler
`createIndex` succeed. -/
structure PineconeWorld where
  describeResult : Except Unit Nat
  deleteOk : Bool
  createOk : Bool
  catchCreateOk : Bool

/-- `initializePinecone()`: describe the index; on a dimension other than
768, delete it, wait 5000 ms and recreate it at dimension 768; any exception
in that block falls into the catch handler, which tries a bare
`createIndex` at 768 and returns `false` if that also fails.  Returns the
trace of API calls and the function's boolean result. -/
def initializePinecone (w : PineconeWorld) : List PcEvent × Bool :=
  let tryResult : Except (List PcEvent) (List PcEvent × Bool) :=
    match w.describeResult with
    | .error _ => .error [.describeCall]
    | .ok dim =>
      if dim ≠ 768 then
        if w.deleteOk then
          if w.createOk then
            .ok ([.describeCall, .deleteCall, .sleepCall 5000, .createCall 768], true)
          else
            .error [.describeCall, .deleteCall, .sleepCall 5000, .createCall 768]
        else .error [.describeCall, .deleteCall]
      else .ok ([.describeCall], true)
  match tryResult with
  | .ok r => r
  | .error evs => (evs ++ [.createCall 768], w.catchCreateOk)

/-! ## `syncKnowledgeBase` (pinecone.ts lines 205-270) -/

/-- `BATCH_SIZE = 100`. -/
def SYNC_BATCH_SIZE : Nat := 100

/-- `DELAY_MS = 2000`. -/
def SYNC_DELAY_MS : Nat := 2000

/-- `MAX_RETRIES = 3`. -/
def MAX_RETRIES : Nat := 3

/-- `Math.round((c / t) * 100)` as round-half-up on rationals.  (The JS
computes this on binary doubles, which can differ from exact rational
rounding only at representation-error boundaries; no claim depends on the
percent field.) -/
def roundPct (c t : Nat) : Nat := (200 * c + t) / (2 * t)

/-- One observable step of a sync run: the `getPineconeStore()` connection,
an `addDocuments` attempt for a batch, an `onProgress` callback invocation,
or an `await`-ed delay. -/
inductive SyncEvent where
  | connect
  | addDocuments (batchNum size : Nat)
  | progress (batch totalBatches chunksIndexed totalChunks percent : Nat)
      (status : Option String)
  | sleep (ms : Nat)
deriving Repr, DecidableEq

/-- The `{ totalChunks, fileCount }` return value. -/
structure SyncResult where
  totalChunks : Nat
  fileCount : Nat
deriving Repr, DecidableEq

/-- The `while (retries <= MAX_RETRIES)` loop for one batch.  `upload a`
says whether the `addDocuments` attempt with `retries = a` succeeds.  The
loop body runs at most `MAX_RETRIES + 1` times (`retries` starts at 0 and
increases by 1 per failure), which the fuel parameter expresses; the fuel-0
case is unreachable from `batchRetryLoop`.  An aborted batch yields
`Except.error batchNum` — the source rethrows the batch's exception after
logging which batch failed.  Events per failed, non-final attempt: the
`addDocuments` call, the retry `onProgress` report (carrying
`chunksIndexed = i`), and the backoff delay `DELAY_MS * 2 ^ (retries - 1)`;
a successful attempt emits the `addDocuments` call followed by the success
`onProgress` report carrying `chunksIndexed = i + batch.length`. -/
def batchRetryGo (upload : Nat → Bool) (batchNum i batchLen totalChunks totalBatches : Nat) :
    Nat → Nat → List SyncEvent × Except Nat Unit
  | _, 0 => ([], .error batchNum)
  | retries, fuel + 1 =>
    if retries ≤ MAX_RETRIES then
      if upload retries then
        ([.addDocuments batchNum batchLen,
          .progress batchNum totalBatches (i + batchLen) totalChunks
            (roundPct (i + batchLen) totalChunks) none],
         .ok ())
      else
        if retries + 1 > MAX_RETRIES then
          ([.addDocuments batchNum batchLen], .error batchNum)
        else
          let backoff := SYNC_DELAY_MS * 2 ^ retries
          let next := batchRetryGo upload batchNum i batchLen totalChunks totalBatches
            (retries + 1) fuel
          (.addDocuments batchNum batchLen ::
           .progress batchNum totalBatches i totalChunks (roundPct i totalChunks)
             (some ("Retry " ++ toString (retries + 1) ++ " for batch " ++
                    toString batchNum ++ "...")) ::
           .sleep backoff :: next.1, next.2)
    else ([], .error batchNum)

/-- The retry loop entered with `retries = 0` and enough fuel for its at
most `MAX_RETRIES + 1` iterations. -/
def batchRetryLoop (upload : Nat → Bool) (batchNum i batchLen totalChunks totalBatches : Nat) :
    List SyncEvent × Except Nat Unit :=
  batchRetryGo upload batchNum i batchLen totalChunks totalBatches 0 (MAX_RETRIES + 1)

/-- The `for (let i = 0; i < validDocs.length; i += BATCH_SIZE)` loop.  The
remaining documents are `validDocs.slice(i)`; each iteration uploads
`slice(i, i + BATCH_SIZE)` via the retry loop, aborts the whole run on its
error, and otherwise sleeps the inter-batch delay (when more batches remain)
and continues.  Fuel bounds the iteration count; `syncLoop` supplies more
than enough. -/
def syncGo (upload : Nat → Nat → Bool) (totalChunks totalBatches : Nat) :
    Nat → List Document → Nat → List SyncEvent × Except Nat Unit
  | 0, _, _ => ([], .ok ())
  | _ + 1, [], _ => ([], .ok ())
  | fuel + 1, d :: ds, i =>
    let batch := (d :: ds).take SYNC_BATCH_SIZE
    let batchNum := i / SYNC_BATCH_SIZE + 1
    let cur := batchRetryLoop (upload batchNum) batchNum i batch.length totalChunks totalBatches
    match cur.2 with
    | .error b => (cur.1, .error b)
    | .ok _ =>
      let delayEvs :=
        if i + SYNC_BATCH_SIZE < totalChunks then [SyncEvent.sleep SYNC_DELAY_MS] else []
      let rest := syncGo upload totalChunks totalBatches fuel
        ((d :: ds).drop SYNC_BATCH_SIZE) (i + SYNC_BATCH_SIZE)
      (cur.1 ++ delayEvs ++ rest.1, rest.2)

/-- The batch-upload loop over `validDocs`, started at `i = 0`. -/
def syncLoop (upload : Nat → Nat → Bool) (totalChunks totalBatches : Nat)
    (validDocs : List Document) : List SyncEvent × Except Nat Unit :=
  syncGo upload totalChunks totalBatches (validDocs.length + 1) validDocs 0

/-- The trace and result of a `syncKnowledgeBase` run. -/
structure SyncOutcome where
  events : List SyncEvent
  result : Except Nat SyncResult
deriving Repr

/-- `syncKnowledgeBase(onProgress, specificFile)` with the filesystem load
made explicit: `rawDocs` is the value of `loadLocalDocuments(specificFile)`
and `upload batchNum attempt` the outcome of each `addDocuments` call.  Zero
loaded documents return `{ totalChunks: 0, fileCount: 0 }` before anything
else happens; otherwise the documents are chunked and filtered, the Pinecone
store is connected, the start progress report is emitted and the batch loop
runs.  (`getPineconeStore()` is modelled as succeeding; its failure aborts
before any batch, which no claim exercises.) -/
def syncKnowledgeBase (upload : Nat → Nat → Bool) (rawDocs : List Document) : SyncOutcome :=
  if rawDocs.length = 0 then ⟨[], .ok ⟨0, 0⟩⟩
  else
    let validDocs := syncValidDocs rawDocs
    let totalBatches := (validDocs.length + (SYNC_BATCH_SIZE - 1)) / SYNC_BATCH_SIZE
    let startEvt := SyncEvent.progress 0 totalBatches 0 validDocs.length 0
      (some ("Starting: " ++ toString validDocs.length ++ " chunks from " ++
             toString rawDocs.length ++ " files"))
    let run := syncLoop upload validDocs.length totalBatches validDocs
    match run.2 with
    | .error b => ⟨SyncEvent.connect :: startEvt :: run.1, .error b⟩
    | .ok _ => ⟨SyncEvent.connect :: startEvt :: run.1, .ok ⟨validDocs.length, rawDocs.length⟩⟩

/-! ## Values and oracles used by the claim theorems -/

/-- The parsed value of the spec's example `{"a": {"b": "x", "c": [1,2]}}`
(JS renders the numbers 1 and 2 as `"1"` and `"2"`). -/
def jsonExample : Json :=
  .obj (.cons "a"
    (.obj (.cons "b" (.str "x")
      (.cons "c" (.arr (.cons (.num "1") (.cons (.num "2") .nil))) .nil))) .nil)
/-- Is the JSON value a non-string scalar (number, boolean or null)?  These
match none of the three `typeof` tests of the array branch. -/
def isNonStringScalar : Json → Bool
  | .num _ => true
  | .bool _ => true
  | .null => true
  | _ => false

/-- Does every element of the list satisfy `isNonStringScalar`? -/
def allNonStringScalar : JsonList → Bool
  | .nil => true
  | .cons h t => isNonStringScalar h && allNonStringScalar t
/-- A keyword-free chunk ranked first and a dialysis chunk ranked last. -/
def docOther : Document := ⟨"General advice on healthy eating.", some "o.md"⟩

/-- A chunk containing the vocabulary keyword `dialysis`. -/
def docDialysis : Document := ⟨"Dialysis filters waste from blood.", some "d.md"⟩
/-- A world whose Pinecone backend answers with one dialysis chunk. -/
def demoWorld : SearchBackends where
  pineconeConfigured := true
  pineconeSearch := fun _ _ => .ok [⟨"Dialysis filters waste.", some "kb.md"⟩]
  localSearch := fun _ _ => .error ()
/-- A world where Pinecone is configured and both backends throw. -/
def failWorld : SearchBackends where
  pineconeConfigured := true
  pineconeSearch := fun _ _ => .error ()
  localSearch := fun _ _ => .error ()
/-- The events of `k` failed attempts of a batch (attempt indices
`0 .. k-1`): each failed `addDocuments` call is followed by a retry progress
report still carrying `chunksIndexed = i`, then the backoff delay
`2000 * 2 ^ attempt` ms. -/
def failEvents (b i len tc tb : Nat) : Nat → List SyncEvent
  | 0 => []
  | k + 1 =>
    failEvents b i len tc tb k ++
      [.addDocuments b len,
       .progress b tb i tc (roundPct i tc)
         (some ("Retry " ++ toString (k + 1) ++ " for batch " ++
                toString b ++ "...")),
       .sleep (SYNC_DELAY_MS * 2 ^ k)]

/-- The progress report emitted when a batch's upload succeeds: cumulative
`chunksIndexed = i + batch.length`, no status message. -/
def successProgress (b i len tc tb : Nat) : SyncEvent :=
  .progress b tb (i + len) tc (roundPct (i + len) tc) none

/-- The backoff/delay durations appearing in an event list, in order. -/
def sleepsOf (evs : List SyncEvent) : List Nat :=
  evs.filterMap (fun e => match e with | .sleep ms => some ms | _ => none)

/-- The number of `addDocuments` attempts in an event list. -/
def attemptsOf (evs : List SyncEvent) : Nat :=
  (evs.filter (fun e => match e with | .addDocuments _ _ => true | _ => false)).length

/-- An upload oracle that fails the first two attempts and then succeeds. -/
def retryTwiceUpload : Nat → Bool := fun a => decide (2 ≤ a)

/-! ## Claim C9: `formatContext` -/

/-- C9: `formatContext` is deterministic and order-preserving: the empty
list yields exactly the sentinel string (which is not the empty string), and
a non-empty list is rendered chunk-by-chunk in input order, each chunk
prefixed with its `[Source: ...]` tag, joined with the fixed delimiter
`"\n\n---\n\n"`. -/
theorem formatContext_spec :
    formatContext [] = "No relevant information found in the knowledge base." ∧
    formatContext [] ≠ "" ∧
    ∀ ds : List Document, ds ≠ [] →
      formatContext ds = String.intercalate "\n\n---\n\n" (ds.map renderChunk) := by
  refine ⟨rfl, by decide, ?_⟩
  intro ds hds
  cases ds with
  | nil => exact absurd rfl hds
  | cons d tl => rfl

/-- Witness for C9 at a concrete one-chunk list. -/
theorem formatContext_spec_witness :
    formatContext [⟨"Kidneys filter blood.", some "guide.md"⟩] =
      "[Source: guide.md]\nKidneys filter blood." := by
  have h := formatContext_spec.2.2 [⟨"Kidneys filter blood.", some "guide.md"⟩] (by decide)
  rw [h]; decide

/-! ## Claim C10: sync with an empty load -/

/-- C10: a sync run whose document load yields zero documents (missing or
empty corpus directory, or a named file that does not exist) returns
`{ totalChunks: 0, fileCount: 0 }` with an empty event trace: no Pinecone
connection, no upload attempt, and zero progress-callback invocations. -/
theorem syncKnowledgeBase_empty_load (upload : Nat → Nat → Bool) :
    syncKnowledgeBase upload [] = ⟨[], .ok ⟨0, 0⟩⟩ := rfl

/-! ## Claim C8: JSON flattening -/


/-- C8 counterexample: flattening the spec's own example yields only
`a > b: x`; the number leaves 1 and 2 inside the array are dropped (no
`a > c: 1` line — the output does not even contain the character `1`). -/
theorem flatten_example_drops_array_numbers :
    flattenJsonToText jsonExample "" = "a > b: x" ∧
    containsSub (flattenJsonToText jsonExample "") "a > c: 1" = false ∧
    containsSub (flattenJsonToText jsonExample "") "1" = false := by
  decide


/-- A non-string scalar flattens to no text at all. -/
theorem scalar_flattens_to_nothing (j : Json) (hj : isNonStringScalar j = true)
    (pfx : String) : flattenJsonToText j pfx = "" := by
  cases j <;> simp [isNonStringScalar] at hj <;> rfl

/-- An array all of whose elements are non-string scalars flattens to the
empty string: every line it contributes is blank and filtered out. -/
theorem scalar_array_flattens_to_nothing :
    ∀ items : JsonList, allNonStringScalar items = true →
      ∀ pfx, flattenJsonToText (.arr items) pfx = ""
  | .nil, _, _ => rfl
  | .cons h t, hall, pfx => by
    have hh : isNonStringScalar h = true := by
      have := hall
      unfold allNonStringScalar at this
      exact (Bool.and_eq_true _ _).mp this |>.1
    have ht : allNonStringScalar t = true := by
      have := hall
      unfold allNonStringScalar at this
      exact (Bool.and_eq_true _ _).mp this |>.2
    have hlines : flattenJsonToText h pfx = "" :=
      scalar_flattens_to_nothing h hh pfx
    have htail : flattenJsonToText (.arr t) pfx = "" :=
      scalar_array_flattens_to_nothing t ht pfx
    show joinNonBlank (flattenArr (.cons h t) pfx) = ""
    have hstep : flattenArr (JsonList.cons h t) pfx =
        flattenJsonToText h pfx :: flattenArr t pfx := rfl
    rw [hstep, hlines]
    have hdrop : joinNonBlank ("" :: flattenArr t pfx) =
        joinNonBlank (flattenArr t pfx) := by
      unfold joinNonBlank
      rw [List.filter_cons, if_neg (by decide)]
    rw [hdrop]
    exact htail

/-- C8 amended: flattening is total over parsed JSON values, and string
leaves and number/boolean values directly under an object key are rendered
as `label: value` lines — but a bare number or boolean flattens to nothing,
so an array of non-string scalars flattens to the empty string and its
number/boolean leaves are dropped; the spec's example flattens to exactly
`a > b: x`. -/
theorem flatten_amended :
    flattenJsonToText jsonExample "" = "a > b: x" ∧
    (∀ r pfx, flattenJsonToText (.num r) pfx = "") ∧
    (∀ b pfx, flattenJsonToText (.bool b) pfx = "") ∧
    (∀ items pfx, allNonStringScalar items = true →
      flattenJsonToText (.arr items) pfx = "") ∧
    (∀ k r rest pfx,
      flattenObj (.cons k (.num r) rest) pfx =
        (jsonLabel pfx k ++ ": " ++ r) :: flattenObj rest pfx) :=
  ⟨by decide, fun _ _ => rfl, fun _ _ => rfl,
   fun items pfx h => scalar_array_flattens_to_nothing items h pfx,
   fun _ _ _ _ => rfl⟩

/-- Witness for C8's amended claim: the array `[1, 2]` under a label
flattens to nothing. -/
theorem flatten_amended_witness :
    flattenJsonToText (.arr (.cons (.num "1") (.cons (.num "2") .nil))) "a > c" = "" :=
  flatten_amended.2.2.2.1 (.cons (.num "1") (.cons (.num "2") .nil)) "a > c" (by decide)

/-! ## Claim C3: dimension mismatch handling -/

/-- C3: on a dimension mismatch `initializePinecone` takes the destructive
recreate path of the claim's disjunction — delete the index, wait 5000 ms,
recreate it at dimension 768 — and nothing else: when the recreate
operations succeed the API trace is exactly that sequence and the function
returns `true`, and on any mismatch the first call after `describeIndex` is
always the destructive `deleteIndex` (never a surfaced fail-fast error, never
any other action). -/
theorem initializePinecone_mismatch (w : PineconeWorld) (dim : Nat)
    (hdesc : w.describeResult = .ok dim) (hdim : dim ≠ 768) :
    (w.deleteOk = true → w.createOk = true →
      initializePinecone w =
        ([.describeCall, .deleteCall, .sleepCall 5000, .createCall 768], true)) ∧
    (initializePinecone w).1.take 2 = [.describeCall, .deleteCall] := by
  constructor
  · intro hdel hcre
    simp [initializePinecone, hdesc, hdim, hdel, hcre]
  · unfold initializePinecone
    rw [hdesc]
    simp only [hdim, if_true, ne_eq, not_false_eq_true, if_pos]
    cases hdel : w.deleteOk <;> cases hcre : w.createOk <;> simp [hdim]

/-- Witness for C3: a 3072-dimension (OpenAI-sized) index is destructively
recreated at 768. -/
theorem initializePinecone_mismatch_witness :
    initializePinecone ⟨.ok 3072, true, true, true⟩ =
      ([.describeCall, .deleteCall, .sleepCall 5000, .createCall 768], true) :=
  (initializePinecone_mismatch ⟨.ok 3072, true, true, true⟩ 3072 rfl (by decide)).1 rfl rfl

/-! ## Claim C5: the keyword rerank is a stable partition -/

/-- Inserting an element satisfying `p` into `A ++ B` (with `A` all
satisfying `p` and `B` all failing it) under the order `p a ∧ ¬ p b` lands
exactly at the boundary. -/
theorem insertStable_pos {α : Type _} (p : α → Bool) (x : α) (hx : p x = true) :
    ∀ A B : List α, (∀ a ∈ A, p a = true) → (∀ b ∈ B, p b = false) →
      insertStable (fun a b => p a && ! p b) x (A ++ B) = A ++ x :: B := by
  intro A
  induction A with
  | nil =>
    intro B _ hB
    cases B with
    | nil => rfl
    | cons b bs =>
      simp [insertStable, hx, hB b (List.mem_cons_self b bs)]
  | cons a as ih =>
    intro B hA hB
    have ha := hA a (List.mem_cons_self a as)
    have hrest := ih B (fun y hy => hA y (List.mem_cons_of_mem a hy)) hB
    simp [insertStable, hx, ha, hrest]

/-- Inserting an element failing `p` under the order `p a ∧ ¬ p b` appends
it at the very end. -/
theorem insertStable_neg {α : Type _} (p : α → Bool) (x : α) (hx : p x = false) :
    ∀ L : List α, insertStable (fun a b => p a && ! p b) x L = L ++ [x] := by
  intro L
  induction L with
  | nil => rfl
  | cons y ys ih => simp [insertStable, hx, ih]

/-- The insertion-sort fold under the order `p a ∧ ¬ p b`, started from a
partitioned accumulator, produces the stable partition of its input. -/
theorem stableSort_partition_aux {α : Type _} (p : α → Bool) :
    ∀ l A B : List α, (∀ a ∈ A, p a = true) → (∀ b ∈ B, p b = false) →
      l.foldl (fun acc x => insertStable (fun a b => p a && ! p b) x acc) (A ++ B) =
        (A ++ l.filter p) ++ (B ++ l.filter (fun x => ! p x)) := by
  intro l
  induction l with
  | nil => intro A B _ _; simp
  | cons x xs ih =>
    intro A B hA hB
    show xs.foldl _ (insertStable _ x (A ++ B)) = _
    cases hx : p x with
    | true =>
      rw [insertStable_pos p x hx A B hA hB]
      have hsplit : A ++ x :: B = (A ++ [x]) ++ B := by simp
      rw [hsplit, ih (A ++ [x]) B ?_ hB]
      · simp [List.filter_cons, hx]
      · intro y hy
        rcases List.mem_append.mp hy with h | h
        · exact hA y h
        · simp at h; subst h; exact hx
    | false =>
      rw [insertStable_neg p x hx (A ++ B), List.append_assoc,
        ih A (B ++ [x]) hA ?_]
      · simp [List.filter_cons, hx]
      · intro y hy
        rcases List.mem_append.mp hy with h | h
        · exact hB y h
        · simp at h; subst h; exact hx

/-- A stable insertion sort under the order `p a ∧ ¬ p b` is the stable
partition by `p`. -/
theorem stableSort_eq_partition {α : Type _} (p : α → Bool) (l : List α) :
    stableSort (fun a b => p a && ! p b) l =
      l.filter p ++ l.filter (fun x => ! p x) := by
  have h := stableSort_partition_aux p l [] [] (by simp) (by simp)
  simpa [stableSort] using h

/-- C5: when the normalized query contains a vocabulary keyword, the rerank
is a stable partition — every keyword-bearing chunk before every
keyword-free chunk, with the original relative order preserved inside each
group; when the query contains no keyword the result order is unchanged. -/
theorem rerank_stable_partition (normalizedQuery : String) (results : List Document) :
    (queryHasKeyword normalizedQuery = true →
      rerankResults normalizedQuery results =
        results.filter docHasKeyword ++
          results.filter (fun d => ! docHasKeyword d)) ∧
    (queryHasKeyword normalizedQuery = false →
      rerankResults normalizedQuery results = results) := by
  constructor
  · intro hq
    unfold rerankResults
    rw [if_pos hq]
    exact stableSort_eq_partition docHasKeyword results
  · intro hq
    unfold rerankResults
    rw [if_neg (by simp [hq])]


/-- Witness for C5: with `dialysis` in the query, the dialysis chunk moves
ahead of the earlier-ranked keyword-free chunk. -/
theorem rerank_stable_partition_witness :
    rerankResults "is dialysis safe" [docOther, docDialysis] = [docDialysis, docOther] := by
  have h := (rerank_stable_partition "is dialysis safe" [docOther, docDialysis]).1 (by decide)
  rw [h]; decide

/-! ## Claims C1, C6, C7: search fallback and the query cache -/

/-- Reranking an empty result list yields the empty list. -/
theorem rerankResults_nil (nq : String) : rerankResults nq [] = [] := by
  unfold rerankResults
  split <;> rfl

/-- `Map.set` followed by `Map.get` of the same key finds the new entry. -/
theorem cacheGet_cacheSet_self (c : Cache) (k : String) (v : CacheEntry) :
    cacheGet (cacheSet c k v) k = some v := by
  induction c with
  | nil => simp [cacheSet, cacheGet]
  | cons kv rest ih =>
    obtain ⟨k', v'⟩ := kv
    by_cases h : k' = k
    · subst h; simp [cacheSet, cacheGet]
    · simp [cacheSet, cacheGet, h, ih]

/-- The miss path stores exactly its returned result list under the
normalized query with the current timestamp. -/
theorem searchMiss_cache (w : SearchBackends) (cache : Cache) (now : Nat)
    (query : String) (topK : Nat) (nq : String) :
    (searchMiss w cache now query topK nq).2.1 =
      cacheSet cache nq ⟨(searchMiss w cache now query topK nq).1, now⟩ := rfl

/-- The miss path returns the reranked backend results. -/
theorem searchMiss_fst (w : SearchBackends) (cache : Cache) (now : Nat)
    (query : String) (topK : Nat) (nq : String) :
    (searchMiss w cache now query topK nq).1 =
      rerankResults nq (backendResults w query topK).1 := rfl

/-- Every miss performs at least one backend invocation. -/
theorem backendResults_events_ne_nil (w : SearchBackends) (q : String) (k : Nat) :
    (backendResults w q k).2 ≠ [] := by
  unfold backendResults
  split
  · split <;> simp_all
    split <;> simp_all
  · split <;> simp_all

/-- A fresh cache hit returns the cached list, leaves the cache untouched
and performs no backend invocation. -/
theorem searchDocuments_hit (w : SearchBackends) (cache : Cache) (now : Nat)
    (query : String) (topK : Nat) (e : CacheEntry)
    (he : cacheGet cache (normKey query) = some e)
    (hfresh : now - e.timestamp < CACHE_TTL) :
    searchDocuments w cache now query topK = (e.docs, cache, []) := by
  simp only [searchDocuments]
  rw [he]
  simp [hfresh]

/-- With no cache entry for the normalized query, `searchDocuments` runs the
miss path. -/
theorem searchDocuments_miss_none (w : SearchBackends) (cache : Cache) (now : Nat)
    (query : String) (topK : Nat)
    (h : cacheGet cache (normKey query) = none) :
    searchDocuments w cache now query topK =
      searchMiss w cache now query topK (normKey query) := by
  simp only [searchDocuments]
  rw [h]

/-- An entry at least `CACHE_TTL` old is ignored: `searchDocuments` runs the
miss path. -/
theorem searchDocuments_miss_expired (w : SearchBackends) (cache : Cache) (now : Nat)
    (query : String) (topK : Nat) (e : CacheEntry)
    (he : cacheGet cache (normKey query) = some e)
    (hold : CACHE_TTL ≤ now - e.timestamp) :
    searchDocuments w cache now query topK =
      searchMiss w cache now query topK (normKey query) := by
  simp only [searchDocuments]
  rw [he]
  simp only []
  rw [if_neg (by omega)]

/-- C6: after a first (cache-missing) call at `now`, a second call with the
same query at any `later` within the TTL returns the identical ordered
result list, leaves the cache unchanged and performs no backend invocation
(while the first call did invoke a backend); and a cache entry at least
`CACHE_TTL` old is treated as absent — such a call performs a fresh backend
invocation. -/
theorem searchDocuments_cache_spec (w : SearchBackends) (cache : Cache)
    (now later : Nat) (query : String) (topK : Nat) :
    (cacheGet cache (normKey query) = none →
      later - now < CACHE_TTL →
      searchDocuments w (searchDocuments w cache now query topK).2.1 later query topK =
        ((searchDocuments w cache now query topK).1,
         (searchDocuments w cache now query topK).2.1, []) ∧
      (searchDocuments w cache now query topK).2.2 ≠ []) ∧
    (∀ e, cacheGet cache (normKey query) = some e →
      CACHE_TTL ≤ now - e.timestamp →
      (searchDocuments w cache now query topK).2.2 ≠ []) := by
  constructor
  · intro hmiss httl
    have h1 := searchDocuments_miss_none w cache now query topK hmiss
    constructor
    · have hc : cacheGet (searchDocuments w cache now query topK).2.1 (normKey query) =
          some ⟨(searchDocuments w cache now query topK).1, now⟩ := by
        rw [h1, searchMiss_cache]
        exact cacheGet_cacheSet_self cache (normKey query) _
      exact searchDocuments_hit w (searchDocuments w cache now query topK).2.1 later
        query topK ⟨(searchDocuments w cache now query topK).1, now⟩ hc httl
    · rw [h1]
      exact backendResults_events_ne_nil w query topK
  · intro e he hold
    rw [searchDocuments_miss_expired w cache now query topK e he hold]
    exact backendResults_events_ne_nil w query topK


/-- Witness for C6: the repeated call within the TTL returns the first
call's list with no backend invocation. -/
theorem searchDocuments_cache_spec_witness :
    searchDocuments demoWorld (searchDocuments demoWorld [] 0 "Dialysis" 6).2.1
        10 "Dialysis" 6 =
      ((searchDocuments demoWorld [] 0 "Dialysis" 6).1,
       (searchDocuments demoWorld [] 0 "Dialysis" 6).2.1, []) :=
  (((searchDocuments_cache_spec demoWorld [] 0 10 "Dialysis" 6).1) rfl (by decide)).1


/-- C7 counterexample: with both backends throwing on a cache miss, a cache
entry IS stored for the normalized query — the failure result `[]` is
memoized, contradicting the claim that no entry is stored. -/
theorem search_failure_is_cached :
    cacheGet (searchDocuments failWorld [] 0 "kidney diet" 6).2.1 "kidney diet" =
      some ⟨[], 0⟩ := rfl

/-- C7 amended: a cache entry is stored after every cache miss, even when
both backends fail: the empty result is memoized under the normalized query,
and a later call within the TTL returns the memoized `[]` without
re-attempting any backend. -/
theorem search_failure_caching (w : SearchBackends) (cache : Cache)
    (now later : Nat) (query : String) (topK : Nat)
    (hmiss : cacheGet cache (normKey query) = none)
    (hconf : w.pineconeConfigured = true)
    (hp : w.pineconeSearch query topK = .error ())
    (hl : w.localSearch query topK = .error ()) :
    cacheGet (searchDocuments w cache now query topK).2.1 (normKey query) =
      some ⟨[], now⟩ ∧
    (later - now < CACHE_TTL →
      searchDocuments w (searchDocuments w cache now query topK).2.1 later query topK =
        ([], (searchDocuments w cache now query topK).2.1, [])) := by
  have hbr : backendResults w query topK =
      ([], [.pineconeSearch query topK, .localSearch query topK]) := by
    unfold backendResults
    rw [if_pos hconf, hp, hl]
  have h1 := searchDocuments_miss_none w cache now query topK hmiss
  have hfst : (searchDocuments w cache now query topK).1 = [] := by
    rw [h1, searchMiss_fst, hbr]
    exact rerankResults_nil (normKey query)
  have hc : cacheGet (searchDocuments w cache now query topK).2.1 (normKey query) =
      some ⟨[], now⟩ := by
    rw [h1, searchMiss_cache, ← h1, hfst]
    exact cacheGet_cacheSet_self cache (normKey query) _
  refine ⟨hc, fun httl => ?_⟩
  exact searchDocuments_hit w (searchDocuments w cache now query topK).2.1 later
    query topK ⟨[], now⟩ hc httl

/-- Witness for C7's amended claim at a concrete double-failure world. -/
theorem search_failure_caching_witness :
    cacheGet (searchDocuments failWorld [] 0 "renal care" 6).2.1 "renal care" =
      some ⟨[], 0⟩ :=
  (search_failure_caching failWorld [] 0 5 "renal care" 6 rfl rfl rfl rfl).1

/-- C1: `searchDocuments` never throws and degrades to `[]`: on a cache miss
with Pinecone configured and its search throwing, the ephemeral local store
is attempted (both backend invocations appear, in order), and if the local
store also throws the call returns the empty list; with Pinecone
unconfigured and the local store throwing, the call likewise returns the
empty list after the single local invocation. -/
theorem searchDocuments_fallback (w : SearchBackends) (cache : Cache)
    (now : Nat) (query : String) (topK : Nat)
    (hmiss : cacheGet cache (normKey query) = none) :
    (w.pineconeConfigured = true →
      w.pineconeSearch query topK = .error () →
      (searchDocuments w cache now query topK).2.2 =
        [.pineconeSearch query topK, .localSearch query topK] ∧
      (w.localSearch query topK = .error () →
        (searchDocuments w cache now query topK).1 = [])) ∧
    (w.pineconeConfigured = false →
      w.localSearch query topK = .error () →
      (searchDocuments w cache now query topK).1 = [] ∧
      (searchDocuments w cache now query topK).2.2 = [.localSearch query topK]) := by
  have h1 := searchDocuments_miss_none w cache now query topK hmiss
  constructor
  · intro hconf hp
    constructor
    · rw [h1]
      show (backendResults w query topK).2 = _
      unfold backendResults
      rw [if_pos hconf, hp]
      cases hlo : w.localSearch query topK <;> rfl
    · intro hl
      rw [h1, searchMiss_fst]
      have hbr : (backendResults w query topK).1 = [] := by
        unfold backendResults
        rw [if_pos hconf, hp, hl]
      rw [hbr]
      exact rerankResults_nil (normKey query)
  · intro hconf hl
    have hbr : backendResults w query topK = ([], [.localSearch query topK]) := by
      unfold backendResults
      rw [if_neg (by simp [hconf]), hl]
    constructor
    · rw [h1, searchMiss_fst, hbr]
      exact rerankResults_nil (normKey query)
    · rw [h1]
      show (backendResults w query topK).2 = _
      rw [hbr]

/-- Witness for C1 at a concrete double-failure world: both backends are
invoked and the empty list is returned. -/
theorem searchDocuments_fallback_witness :
    (searchDocuments failWorld [] 0 "kidney stones" 6).1 = [] ∧
    (searchDocuments failWorld [] 0 "kidney stones" 6).2.2 =
      [.pineconeSearch "kidney stones" 6, .localSearch "kidney stones" 6] := by
  have h := (searchDocuments_fallback failWorld [] 0 "kidney stones" 6 rfl).1 rfl rfl
  exact ⟨h.2 rfl, h.1⟩

/-! ## Claim C4: the minimum-chunk-length invariant -/

/-- C4 counterexample: the ephemeral store's splitter (`splitDocuments` in
vectorStore.ts) applies no minimum-length filter — the two-character
document `hi` passes through as a chunk whose trimmed length is 2, not
greater than 10, and nothing drops it before the ephemeral store indexes
it. -/
theorem splitDocumentsVS_short_chunk :
    splitDocumentsVS [⟨"hi", some "note.txt"⟩] = [⟨"hi", some "note.txt"⟩] ∧
    ¬ (10 < (jsTrim "hi").length) := ⟨rfl, by decide⟩

/-- C4 amended: the file-buffer, raw-text and sync chunking paths drop every
chunk whose trimmed content length is at most 10, so each of their output
chunks has trimmed length strictly greater than 10; the ephemeral store's
splitter applies no such filter and can emit sub-threshold chunks. -/
theorem chunking_min_length (documents : List Document) (text sourceLabel : String)
    (rawDocs : List Document) :
    (∀ d ∈ processFileBufferChunks documents, 10 < (jsTrim d.pageContent).length) ∧
    (∀ d ∈ processRawText text sourceLabel, 10 < (jsTrim d.pageContent).length) ∧
    (∀ d ∈ syncValidDocs rawDocs, 10 < (jsTrim d.pageContent).length) := by
  refine ⟨?_, ?_, ?_⟩ <;>
  · intro d hd
    have h := List.of_mem_filter hd
    simpa [isViableChunk] using h

/-- Witness for C4's amended claim: the single chunk `processRawText`
produces from a 17-character text satisfies the invariant. -/
theorem chunking_min_length_witness :
    10 < (jsTrim (Document.mk "Potassium limits." (some "kb")).pageContent).length :=
  (chunking_min_length [] "Potassium limits." "kb" []).2.1
    ⟨"Potassium limits.", some "kb"⟩ (by decide)

/-! ## Claim C2: batch retry, backoff and progress reporting -/


/-- Full characterization of one batch's retry loop: if attempt `k ≤ 3` is
the first successful one, the loop performs attempts `0 .. k` with the
doubling backoffs in between and ends with the success progress report; if
all four attempts fail it aborts with the batch number after the third
backoff and a final failed attempt. -/
theorem batchRetryLoop_characterization (upload : Nat → Bool) (b i len tc tb : Nat) :
    (∀ k, k ≤ MAX_RETRIES → (∀ j, j < k → upload j = false) → upload k = true →
      batchRetryLoop upload b i len tc tb =
        (failEvents b i len tc tb k ++
          [.addDocuments b len, successProgress b i len tc tb], .ok ())) ∧
    ((∀ j, j ≤ MAX_RETRIES → upload j = false) →
      batchRetryLoop upload b i len tc tb =
        (failEvents b i len tc tb MAX_RETRIES ++ [.addDocuments b len],
         .error b)) := by
  constructor
  · intro k hk hprev hsucc
    have hk3 : k ≤ 3 := hk
    interval_cases k
    · simp [batchRetryLoop, batchRetryGo, hsucc, failEvents, successProgress,
        MAX_RETRIES, SYNC_DELAY_MS]
    · have h0 := hprev 0 (by omega)
      simp [batchRetryLoop, batchRetryGo, h0, hsucc, failEvents, successProgress,
        MAX_RETRIES, SYNC_DELAY_MS]
    · have h0 := hprev 0 (by omega)
      have h1 := hprev 1 (by omega)
      simp [batchRetryLoop, batchRetryGo, h0, h1, hsucc, failEvents, successProgress,
        MAX_RETRIES, SYNC_DELAY_MS]
    · have h0 := hprev 0 (by omega)
      have h1 := hprev 1 (by omega)
      have h2 := hprev 2 (by omega)
      simp [batchRetryLoop, batchRetryGo, h0, h1, h2, hsucc, failEvents,
        successProgress, MAX_RETRIES, SYNC_DELAY_MS]
  · intro hall
    have h0 := hall 0 (by decide)
    have h1 := hall 1 (by decide)
    have h2 := hall 2 (by decide)
    have h3 := hall 3 (by decide)
    simp [batchRetryLoop, batchRetryGo, h0, h1, h2, h3, failEvents,
      successProgress, MAX_RETRIES, SYNC_DELAY_MS]

/-- Every run of the retry loop ends in exactly one of the two
characterized shapes: success at the first succeeding attempt `k ≤ 3`, or
abort after four failures. -/
theorem batchRetryLoop_cases (upload : Nat → Bool) (b i len tc tb : Nat) :
    (∃ k, k ≤ MAX_RETRIES ∧ upload k = true ∧ (∀ j, j < k → upload j = false) ∧
      batchRetryLoop upload b i len tc tb =
        (failEvents b i len tc tb k ++
          [.addDocuments b len, successProgress b i len tc tb], .ok ())) ∨
    ((∀ j, j ≤ MAX_RETRIES → upload j = false) ∧
      batchRetryLoop upload b i len tc tb =
        (failEvents b i len tc tb MAX_RETRIES ++ [.addDocuments b len],
         .error b)) := by
  have char := batchRetryLoop_characterization upload b i len tc tb
  by_cases h0 : upload 0 = true
  · exact .inl ⟨0, by decide, h0, fun j hj => absurd hj (Nat.not_lt_zero j),
      char.1 0 (by decide) (fun j hj => absurd hj (Nat.not_lt_zero j)) h0⟩
  · have h0' : upload 0 = false := by simpa using h0
    by_cases h1 : upload 1 = true
    · have hprev : ∀ j, j < 1 → upload j = false := by
        intro j hj; interval_cases j; exact h0'
      exact .inl ⟨1, by decide, h1, hprev, char.1 1 (by decide) hprev h1⟩
    · have h1' : upload 1 = false := by simpa using h1
      by_cases h2 : upload 2 = true
      · have hprev : ∀ j, j < 2 → upload j = false := by
          intro j hj; interval_cases j
          · exact h0'
          · exact h1'
        exact .inl ⟨2, by decide, h2, hprev, char.1 2 (by decide) hprev h2⟩
      · have h2' : upload 2 = false := by simpa using h2
        by_cases h3 : upload 3 = true
        · have hprev : ∀ j, j < 3 → upload j = false := by
            intro j hj; interval_cases j
            · exact h0'
            · exact h1'
            · exact h2'
          exact .inl ⟨3, by decide, h3, hprev, char.1 3 (by decide) hprev h3⟩
        · have h3' : upload 3 = false := by simpa using h3
          have hall : ∀ j, j ≤ MAX_RETRIES → upload j = false := by
            intro j hj
            have hj3 : j ≤ 3 := hj
            interval_cases j
            · exact h0'
            · exact h1'
            · exact h2'
            · exact h3'
          exact .inr ⟨hall, char.2 hall⟩

/-- The retry loop's error always carries its own batch number. -/
theorem batchRetryLoop_error_eq (upload : Nat → Bool) (b i len tc tb e : Nat)
    (h : (batchRetryLoop upload b i len tc tb).2 = .error e) : e = b := by
  rcases batchRetryLoop_cases upload b i len tc tb with ⟨k, -, -, -, hloop⟩ | ⟨-, hloop⟩
  · rw [hloop] at h
    simp at h
  · rw [hloop] at h
    simp at h
    omega

/-- Whenever the retry loop finishes a batch successfully, the cumulative
success progress report is among its events. -/
theorem batchRetryGo_ok_mem (upload : Nat → Bool) (b i len tc tb : Nat) :
    ∀ fuel retries evs,
      batchRetryGo upload b i len tc tb retries fuel = (evs, .ok ()) →
      successProgress b i len tc tb ∈ evs := by
  intro fuel
  induction fuel with
  | zero =>
    intro retries evs h
    simp [batchRetryGo] at h
  | succ fuel ih =>
    intro retries evs h
    simp only [batchRetryGo] at h
    split_ifs at h with hg hu hmax
    · rw [Prod.mk.injEq] at h
      obtain ⟨hevs, -⟩ := h
      rw [← hevs]
      simp [successProgress]
    · simp at h
    · rcases hnext : batchRetryGo upload b i len tc tb (retries + 1) fuel with ⟨evs', res⟩
      rw [hnext] at h
      rw [Prod.mk.injEq] at h
      obtain ⟨hevs, hres⟩ := h
      cases res with
      | error e => simp at hres
      | ok u =>
        cases u
        have hmem := ih (retries + 1) evs' hnext
        rw [← hevs]
        exact List.mem_cons_of_mem _ (List.mem_cons_of_mem _ (List.mem_cons_of_mem _ hmem))
    · simp at h

/-- No event of `failEvents` is a status-free (success) progress report. -/
theorem successProgress_not_mem_failEvents (b i len tc tb : Nat) :
    ∀ k bn tbs ci tcs pct,
      SyncEvent.progress bn tbs ci tcs pct none ∉ failEvents b i len tc tb k := by
  intro k
  induction k with
  | zero =>
    intro bn tbs ci tcs pct h
    simp [failEvents] at h
  | succ k ih =>
    intro bn tbs ci tcs pct h
    simp only [failEvents, List.mem_append] at h
    rcases h with h | h
    · exact ih bn tbs ci tcs pct h
    · simp at h

/-- `(j + SYNC_BATCH_SIZE) / SYNC_BATCH_SIZE = j / SYNC_BATCH_SIZE + 1`. -/
theorem batchNum_step (j : Nat) :
    (j + SYNC_BATCH_SIZE) / SYNC_BATCH_SIZE = j / SYNC_BATCH_SIZE + 1 :=
  Nat.add_div_right j (by decide)

/-- When a sync run aborts at batch `e`, the trace still contains the
success progress report of every earlier batch: committed batches are not
rolled back. -/
theorem syncGo_no_rollback (upload2 : Nat → Nat → Bool) (tc tb : Nat) :
    ∀ fuel remaining j evs e,
      syncGo upload2 tc tb fuel remaining j = (evs, .error e) →
      ∀ m, j / SYNC_BATCH_SIZE + 1 ≤ m → m < e →
        ∃ ci pct, SyncEvent.progress m tb ci tc pct none ∈ evs := by
  intro fuel
  induction fuel with
  | zero =>
    intro remaining j evs e h
    simp [syncGo] at h
  | succ fuel ih =>
    intro remaining j evs e h m hm1 hm2
    cases remaining with
    | nil => simp [syncGo] at h
    | cons d ds =>
      simp only [syncGo] at h
      rcases hcur : batchRetryLoop (upload2 (j / SYNC_BATCH_SIZE + 1))
          (j / SYNC_BATCH_SIZE + 1) j ((d :: ds).take SYNC_BATCH_SIZE).length tc tb
        with ⟨evsb, resb⟩
      rw [hcur] at h
      cases resb with
      | error eb =>
        rw [Prod.mk.injEq] at h
        obtain ⟨-, hres⟩ := h
        have heb : eb = j / SYNC_BATCH_SIZE + 1 :=
          batchRetryLoop_error_eq _ _ _ _ _ _ eb (by rw [hcur])
        have : e = eb := by
          cases hres
          rfl
        omega
      | ok u =>
        cases u
        rcases hrest : syncGo upload2 tc tb fuel ((d :: ds).drop SYNC_BATCH_SIZE)
            (j + SYNC_BATCH_SIZE) with ⟨evsr, resr⟩
        rw [hrest] at h
        rw [Prod.mk.injEq] at h
        obtain ⟨hevs, hres⟩ := h
        rcases Nat.lt_or_ge m (j / SYNC_BATCH_SIZE + 2) with hmlt | hmge
        · have hm : m = j / SYNC_BATCH_SIZE + 1 := by omega
          subst hm
          have hmem := batchRetryGo_ok_mem (upload2 (j / SYNC_BATCH_SIZE + 1))
            (j / SYNC_BATCH_SIZE + 1) j ((d :: ds).take SYNC_BATCH_SIZE).length tc tb
            (MAX_RETRIES + 1) 0 evsb hcur
          refine ⟨j + ((d :: ds).take SYNC_BATCH_SIZE).length,
            roundPct (j + ((d :: ds).take SYNC_BATCH_SIZE).length) tc, ?_⟩
          rw [← hevs]
          have hmem' : SyncEvent.progress (j / SYNC_BATCH_SIZE + 1) tb
              (j + ((d :: ds).take SYNC_BATCH_SIZE).length) tc
              (roundPct (j + ((d :: ds).take SYNC_BATCH_SIZE).length) tc) none ∈ evsb :=
            hmem
          simp only [List.mem_append]
          exact Or.inl (Or.inl hmem')
        · have hres' : resr = .error e := by
            cases hres
            rfl
          have hrec := ih ((d :: ds).drop SYNC_BATCH_SIZE) (j + SYNC_BATCH_SIZE) evsr e
            (by rw [hrest, hres'])
          have hstep : (j + SYNC_BATCH_SIZE) / SYNC_BATCH_SIZE + 1 ≤ m := by
            rw [batchNum_step]
            omega
          obtain ⟨ci, pct, hmem⟩ := hrec m hstep hm2
          refine ⟨ci, pct, ?_⟩
          rw [← hevs]
          simp only [List.mem_append]
          exact Or.inr hmem

/-- C2: per batch, a failing upload is retried at most 3 times (at most 4
`addDocuments` attempts), with backoff delays forming a prefix of
2000, 4000, 8000 ms — base 2 seconds, doubling per attempt, strictly
increasing; four failures abort the run with an error carrying that batch's
number after the full backoff schedule; the cumulative
`chunksIndexed = i + batch.length` report is emitted only on upload success
(an aborted batch's trace contains no status-free progress report, a
successful one ends with it right after its successful `addDocuments`); and
an abort at batch `e` leaves the success report of every earlier batch in
the trace — committed batches are not rolled back. -/
theorem sync_retry_backoff_spec (upload : Nat → Bool) (upload2 : Nat → Nat → Bool)
    (b i len tc tb : Nat) :
    (attemptsOf (batchRetryLoop upload b i len tc tb).1 ≤ 4 ∧
     sleepsOf (batchRetryLoop upload b i len tc tb).1 =
       [2000, 4000, 8000].take
         (attemptsOf (batchRetryLoop upload b i len tc tb).1 - 1)) ∧
    ((∀ j, j ≤ MAX_RETRIES → upload j = false) →
      batchRetryLoop upload b i len tc tb =
        (failEvents b i len tc tb MAX_RETRIES ++ [.addDocuments b len],
         .error b)) ∧
    ((batchRetryLoop upload b i len tc tb).2 = .ok () →
      ∃ k, k ≤ MAX_RETRIES ∧ upload k = true ∧
        (batchRetryLoop upload b i len tc tb).1 =
          failEvents b i len tc tb k ++
            [.addDocuments b len, successProgress b i len tc tb]) ∧
    (∀ e, (batchRetryLoop upload b i len tc tb).2 = .error e →
      successProgress b i len tc tb ∉ (batchRetryLoop upload b i len tc tb).1) ∧
    (∀ fuel remaining j evs e,
      syncGo upload2 tc tb fuel remaining j = (evs, .error e) →
      ∀ m, j / SYNC_BATCH_SIZE + 1 ≤ m → m < e →
        ∃ ci pct, SyncEvent.progress m tb ci tc pct none ∈ evs) := by
  refine ⟨?_, (batchRetryLoop_characterization upload b i len tc tb).2, ?_, ?_,
    syncGo_no_rollback upload2 tc tb⟩
  · rcases batchRetryLoop_cases upload b i len tc tb with
      ⟨k, hk, -, -, hloop⟩ | ⟨-, hloop⟩
    · rw [hloop]
      have hk3 : k ≤ 3 := hk
      interval_cases k <;>
        simp [attemptsOf, sleepsOf, failEvents, successProgress, SYNC_DELAY_MS]
    · rw [hloop]
      simp [attemptsOf, sleepsOf, failEvents, successProgress, SYNC_DELAY_MS,
        MAX_RETRIES]
  · intro hok
    rcases batchRetryLoop_cases upload b i len tc tb with
      ⟨k, hk, hku, -, hloop⟩ | ⟨-, hloop⟩
    · exact ⟨k, hk, hku, by rw [hloop]⟩
    · rw [hloop] at hok
      simp at hok
  · intro e herr hmem
    rcases batchRetryLoop_cases upload b i len tc tb with
      ⟨k, -, -, -, hloop⟩ | ⟨-, hloop⟩
    · rw [hloop] at herr
      simp at herr
    · rw [hloop] at hmem
      simp only [List.mem_append] at hmem
      rcases hmem with hmem | hmem
      · exact successProgress_not_mem_failEvents b i len tc tb MAX_RETRIES
          b tb (i + len) tc (roundPct (i + len) tc) hmem
      · simp [successProgress] at hmem

/-- Witness for C2 at the spec's own test scenario: an upload failing twice
then succeeding performs exactly two retries with backoffs 2000 then 4000
ms, and ends with the cumulative success report. -/
theorem sync_retry_backoff_spec_witness :
    (batchRetryLoop retryTwiceUpload 1 0 5 5 1).2 = .ok () ∧
    (∃ k, k ≤ MAX_RETRIES ∧ retryTwiceUpload k = true ∧
      (batchRetryLoop retryTwiceUpload 1 0 5 5 1).1 =
        failEvents 1 0 5 5 1 k ++
          [.addDocuments 1 5, successProgress 1 0 5 5 1]) ∧
    sleepsOf (batchRetryLoop retryTwiceUpload 1 0 5 5 1).1 = [2000, 4000] :=
  ⟨rfl,
   (sync_retry_backoff_spec retryTwiceUpload (fun _ _ => true) 1 0 5 5 1).2.2.1 rfl,
   by decide⟩

end KidneyAI
